import Mathlib

/-!
Verification of the `query3` library (a query-string → MongoDB-filter translator
with pagination, operator allow-listing and field omission).

The repository ships two variants of the `Query3<T>` class:
* a JSON-body variant, whose `parseQueryString` runs `JSON.parse` on the whole
  query string and destructures the reserved keys out of the result, and
* a flat-param variant, whose `parseQueryString` runs `qs.parse` and filters the
  reserved keys explicitly, additionally coercing numeric-looking leaf strings.

Both variants are embedded below, over a type `JValue` of JavaScript values.
Decoding builtins (`JSON.parse`, `qs.parse`) are not reimplemented: the
embedded parsers take the already-decoded mapping as input, and the one place
where `JSON.parse` is applied to a nested string is parameterized by an
arbitrary decoder function.
-/

namespace Query3

/-- A JavaScript value as produced by `JSON.parse` or `qs.parse`: null,
booleans, numbers (modelled as rationals, ignoring floating-point rounding),
strings, objects (association lists in key-insertion order) and arrays. -/
inductive JValue where
  | null
  | bool (b : Bool)
  | num (q : ℚ)
  | str (s : String)
  | obj (fields : List (String × JValue))
  | arr (elems : List JValue)

/-- A JavaScript object: an association list in key-insertion order.
Objects built by the JavaScript runtime always have pairwise-distinct keys. -/
abbrev Obj := List (String × JValue)

/-- Property read `o[k]` (also destructuring): the value bound to `k`, if any. -/
def jsGet (o : Obj) (k : String) : Option JValue :=
  (o.find? (fun kv => kv.1 == k)).map (fun kv => kv.2)

/-- The key list `Object.keys` of an object, in insertion order. -/
def objKeys (o : Obj) : List String :=
  o.map (fun kv => kv.1)

/-- Property write `o[k] = v`: updates the binding in place if the key exists,
otherwise appends it (JavaScript key-insertion order). -/
def objSet (o : Obj) (k : String) (v : JValue) : Obj :=
  if o.any (fun kv => kv.1 == k) then
    o.map (fun kv => if kv.1 == k then (k, v) else kv)
  else o ++ [(k, v)]

/-- Builds an object by assigning a list of entries in order into a fresh empty
object: the semantics of `{...a}` spreads and of `reduce`-into-`{}` loops.
Later entries win on key collision; first-occurrence order is kept. -/
def objFromEntries (l : Obj) : Obj :=
  l.foldl (fun acc kv => objSet acc kv.1 kv.2) []

/-- Object spread `{...a, ...b}`: assign all entries of `a`, then all of `b`. -/
def jsSpread (a b : Obj) : Obj :=
  objFromEntries (a ++ b)

/-- Decimal digits of a natural number (most significant first); the first
argument is fuel, instantiated with `n + 1` in `natToStr`. -/
def natDigits : ℕ → ℕ → List Char
  | 0, _ => []
  | fuel + 1, n =>
    if n < 10 then [Char.ofNat (48 + n)]
    else natDigits fuel (n / 10) ++ [Char.ofNat (48 + n % 10)]

/-- Decimal rendering of a natural number, as JavaScript renders array indices. -/
def natToStr (n : ℕ) : String :=
  ⟨natDigits (n + 1) n⟩

/-- The keys `Object.keys(v)` of a value of JavaScript type `object`: the own keys of an
object, the decimal index strings of an array, and `[]` otherwise. -/
def jsKeys : JValue → List String
  | .obj l => objKeys l
  | .arr l => (List.range l.length).map natToStr
  | _ => []

/-- JavaScript truthiness: `null`, `false`, `0` and `""` are falsy; every
object, array and other primitive value is truthy. -/
def truthy : JValue → Bool
  | .null => false
  | .bool b => b
  | .num q => decide (q ≠ 0)
  | .str s => !s.toList.isEmpty
  | .obj _ => true
  | .arr _ => true

/-- ASCII decimal digit test. -/
def isDigitChar (c : Char) : Bool :=
  48 ≤ c.toNat && c.toNat ≤ 57

/-- Value of a list of decimal digits, most significant first. -/
def digitsToNat (l : List Char) : ℕ :=
  l.foldl (fun n c => 10 * n + (c.toNat - 48)) 0

/-- Numerator/denominator of an unsigned decimal literal `digits`,
`digits.digits` or `.digits`; `none` when the text is not such a literal. -/
def numParts (l : List Char) : Option (ℕ × ℕ) :=
  let ip := l.takeWhile isDigitChar
  let rest := l.dropWhile isDigitChar
  match rest with
  | [] => if ip.isEmpty then none else some (digitsToNat ip, 1)
  | c :: fp =>
    if c == Char.ofNat 46 && fp.all isDigitChar && !(ip.isEmpty && fp.isEmpty) then
      some (digitsToNat ip * 10 ^ fp.length + digitsToNat fp, 10 ^ fp.length)
    else none

/-- JavaScript `Number(string)` on the decimal fragment of its grammar:
surrounding spaces are ignored, the empty string is `0`, an optional sign
precedes a decimal literal; anything else is `NaN` (`none`). Hexadecimal,
exponent and `Infinity` forms are outside the scope of this development. -/
def strToNum (s : String) : Option ℚ :=
  let t := ((s.toList.dropWhile (fun c => c == Char.ofNat 32)).reverse.dropWhile
    (fun c => c == Char.ofNat 32)).reverse
  match t with
  | [] => some 0
  | c :: rest =>
    if c == Char.ofNat 45 then (numParts rest).map (fun nd => mkRat (-(nd.1 : ℤ)) nd.2)
    else if c == Char.ofNat 43 then (numParts rest).map (fun nd => mkRat (nd.1 : ℤ) nd.2)
    else (numParts t).map (fun nd => mkRat (nd.1 : ℤ) nd.2)

/-- A JavaScript number: `NaN`, the two infinities, or a finite value. -/
inductive JsNum where
  | nan
  | inf
  | neginf
  | num (q : ℚ)
deriving DecidableEq

/-- Embedding of finite naturals into JavaScript numbers' finite values. -/
def natToRat (n : ℕ) : ℚ := mkRat (n : ℤ) 1

/-- JavaScript `Number(value)` coercion. Objects are `NaN`; an array coerces
through its comma-joined string rendering, of which the cases realisable here
are covered: `[]` is `0`, a singleton of a null/number/string behaves as that
element, a singleton boolean/object and longer arrays are `NaN`.
(A singleton whose element is itself an array is approximated as `NaN`.) -/
def jsToNumber : JValue → JsNum
  | .null => .num 0
  | .bool b => .num (if b then 1 else 0)
  | .num q => .num q
  | .str s =>
    match strToNum s with
    | some q => .num q
    | none => .nan
  | .obj _ => .nan
  | .arr [] => .num 0
  | .arr [.null] => .num 0
  | .arr [.num q] => .num q
  | .arr [.str s] =>
    match strToNum s with
    | some q => .num q
    | none => .nan
  | .arr [_] => .nan
  | .arr (_ :: _ :: _) => .nan

/-- Division of finite JavaScript numbers via cross-multiplied `Rat.divInt`
(definitionally evaluable, unlike `Rat.div`). Equal to `a / b` for `b ≠ 0`. -/
def jsDivQ (a b : ℚ) : ℚ :=
  Rat.divInt (a.num * (b.den : ℤ)) ((a.den : ℤ) * b.num)

/-- JavaScript division, including the `NaN`, infinity and divide-by-zero
behaviour of IEEE doubles (signed zero collapsed onto `0`). -/
def jsDiv : JsNum → JsNum → JsNum
  | .nan, _ => .nan
  | _, .nan => .nan
  | .inf, .inf => .nan
  | .inf, .neginf => .nan
  | .neginf, .inf => .nan
  | .neginf, .neginf => .nan
  | .inf, .num b => if b.num < 0 then .neginf else .inf
  | .neginf, .num b => if b.num < 0 then .inf else .neginf
  | .num _, .inf => .num 0
  | .num _, .neginf => .num 0
  | .num a, .num b =>
    if b.num = 0 then
      if a.num = 0 then .nan
      else if a.num < 0 then .neginf
      else .inf
    else .num (jsDivQ a b)

/-- Ceiling of a rational, computed on the numerator/denominator pair so that
it evaluates definitionally. Proven equal to `⌈q⌉` below. -/
def ratCeil (q : ℚ) : ℤ :=
  -((-q.num) / (q.den : ℤ))

/-- JavaScript `Math.ceil`: the ceiling on finite numbers, identity on `NaN`
and the infinities. -/
def jsCeil : JsNum → JsNum
  | .num q => .num (mkRat (ratCeil q) 1)
  | x => x

/-- A JavaScript exception: a thrown `Error` with its message, or a runtime
`TypeError`/`SyntaxError`. -/
inductive JsError where
  | error (msg : String)
  | typeError (msg : String)
  | syntaxError (msg : String)
deriving DecidableEq

/-- The message of the error thrown by `validateOperators`:
`Operator '<op>' is not allowed.` (it names the operator key only). -/
def operatorErrMsg (op : String) : String :=
  "Operator \x27" ++ op ++ "\x27 is not allowed."

/-- Bool-valued substring test, used to formalise that an error message does or
does not cite a given piece of text. -/
def strContains (s pat : String) : Bool :=
  s.toList.tails.any (fun t => pat.toList.isPrefixOf t)

/-- The inner `Object.keys(value).forEach` loop of `validateOperators`: throws
on the first key not contained in the allow-list. -/
def checkKeys (ks : List String) (allowed : List String) : Except JsError Unit :=
  match ks with
  | [] => .ok ()
  | k :: rest =>
    if allowed.contains k then checkKeys rest allowed
    else .error (.error (operatorErrMsg k))

/-- The `validateOperators` of the JSON-body variant: for each entry whose value
has JavaScript type `object` (which includes arrays and `null`), checks the
value's own keys against the allow-list. `Object.keys(null)` raises a
`TypeError`, since `typeof null` is `'object'` and there is no null guard. -/
def jsonValidateOperators : Obj → List String → Except JsError Unit
  | [], _ => .ok ()
  | (_, v) :: rest, allowed =>
    match v with
    | .null => .error (.typeError "Cannot convert undefined or null to object")
    | .obj _ =>
      match checkKeys (jsKeys v) allowed with
      | .error e => .error e
      | .ok _ => jsonValidateOperators rest allowed
    | .arr _ =>
      match checkKeys (jsKeys v) allowed with
      | .error e => .error e
      | .ok _ => jsonValidateOperators rest allowed
    | _ => jsonValidateOperators rest allowed

/-- The `validateOperators` of the flat-param variant: identical to the JSON-body
variant except for the `value !== null` guard, which makes null values pass. -/
def qsValidateOperators : Obj → List String → Except JsError Unit
  | [], _ => .ok ()
  | (_, v) :: rest, allowed =>
    match v with
    | .null => qsValidateOperators rest allowed
    | .obj _ =>
      match checkKeys (jsKeys v) allowed with
      | .error e => .error e
      | .ok _ => qsValidateOperators rest allowed
    | .arr _ =>
      match checkKeys (jsKeys v) allowed with
      | .error e => .error e
      | .ok _ => qsValidateOperators rest allowed
    | _ => qsValidateOperators rest allowed

/-- The computable `ratCeil` agrees with Mathlib's ceiling. -/
theorem ratCeil_eq_ceil (q : ℚ) : ratCeil q = ⌈q⌉ := by
  have h1 : (⌈q⌉ : ℤ) = -⌊-q⌋ := by rw [← Int.ceil_neg, neg_neg]
  rw [h1, Rat.floor_def, ratCeil]
  norm_num

/-- The computable `jsDivQ` agrees with rational division away from zero denominators. -/
theorem jsDivQ_eq_div (a b : ℚ) (hb : b ≠ 0) : jsDivQ a b = a / b := by
  have had : ((a.den : ℚ)) ≠ 0 := by exact_mod_cast a.den_nz
  have hbd : ((b.den : ℚ)) ≠ 0 := by exact_mod_cast b.den_nz
  have hbn : ((b.num : ℚ)) ≠ 0 := by exact_mod_cast Rat.num_ne_zero.mpr hb
  rw [jsDivQ, Rat.divInt_eq_div]
  push_cast
  conv_rhs => rw [← Rat.num_div_den a, ← Rat.num_div_den b]
  field_simp

/-- Modelled from the spec: the constants module (`query3.constant.ts`) is not
among the provided sources; the spec fixes the default `limit` at 20. -/
def DefaultLimit : ℚ := 20

/-- Modelled from the spec: the constants module (`query3.constant.ts`) is not
among the provided sources; the spec fixes the default `offset` at 0. -/
def DefaultOffset : ℚ := 0

/-- Modelled from the spec: the constants module (`query3.constant.ts`) is not
among the provided sources; the spec describes the default allow-list as a
fixed built-in set of comparison/existence operator keys and gives this
enumeration as its example. All theorems below hold for any value of it. -/
def DefaultAllowedOperators : List String :=
  ["$gte", "$lte", "$eq", "$gt", "$lt", "$in", "$ne", "$nin", "$regex", "$exists"]

/-- The five reserved query keys, excluded from the filter by both variants. -/
def ReservedKeys : List String := ["limit", "offset", "sort", "count", "justOne"]

/-- The index/value entries of an array, as seen by `Object.entries` and by an
object spread of an array. -/
def indexedEntries (l : List JValue) : Obj :=
  ((List.range l.length).zip l).map (fun iv => (natToStr iv.1, iv.2))

/-- The shallow copy `{...value}` that the JSON-body `parseQueryString` applies
to every filter value of JavaScript type `object`: spreading `null` gives `{}`,
spreading an array gives an object keyed by decimal indices. -/
def spreadToObj : JValue → JValue
  | .obj l => .obj (objFromEntries l)
  | .arr l => .obj (objFromEntries (indexedEntries l))
  | _ => .obj []

/-- The structured result of `parseQueryString` (`ParseQueryResult<T>`). -/
structure ParseQueryResult where
  filter : Obj
  limit : JsNum
  offset : JsNum
  sort : JValue
  count : JValue
  justOne : JValue
  cacheTimeMs : ℚ

/-- The `parseQueryString` of the JSON-body variant, taking the already-decoded
result of `JSON.parse(queryString)` (an object with pairwise-distinct keys).
Reserved keys are destructured out with defaults applying only when the key is
absent; the remaining entries are validated and then shallow-copied; `limit`
and `offset` pass through `Number(...)`. -/
def jsonParseQueryString (query : Obj) (allowedOperatorsOpt : Option (List String)) :
    Except JsError ParseQueryResult :=
  let limitv := (jsGet query "limit").getD (.num DefaultLimit)
  let offsetv := (jsGet query "offset").getD (.num DefaultOffset)
  let sortv := jsGet query "sort"
  let justOnev := (jsGet query "justOne").getD (.bool false)
  let countv := (jsGet query "count").getD (.bool false)
  let filters := query.filter (fun kv => !(ReservedKeys.contains kv.1))
  let allowedOperators := allowedOperatorsOpt.getD DefaultAllowedOperators
  match jsonValidateOperators filters allowedOperators with
  | .error e => .error e
  | .ok _ =>
    let parsedFilters := objFromEntries (filters.map (fun kv =>
      (kv.1, match kv.2 with
        | .null => spreadToObj kv.2
        | .obj l => spreadToObj (.obj l)
        | .arr l => spreadToObj (.arr l)
        | v => v)))
    .ok {
      filter := parsedFilters
      limit := jsToNumber limitv
      offset := jsToNumber offsetv
      sort := match sortv with
        | some v => if truthy v then v else .obj []
        | none => .obj []
      count := countv
      justOne := justOnev
      cacheTimeMs := 0 }

/-- String `startsWith`, on character lists so that it evaluates. -/
def strStartsWith (s pat : String) : Bool :=
  pat.toList.isPrefixOf s.toList

/-- The leaf coercion `isNaN(Number(value)) ? value : Number(value)` of the
flat-param `parseQueryString`. -/
def coerceNum (v : JValue) : JValue :=
  match jsToNumber v with
  | .num q => .num q
  | _ => v

/-- Conversion of one filter value by the flat-param `parseQueryString`:
JSON-looking strings are decoded by the (parameterised) `JSON.parse`; non-null
objects and arrays are rebuilt one level deep with their leaves coerced;
other values are coerced directly. -/
def qsConvertValue (jsonDecode : String → Except JsError JValue) :
    JValue → Except JsError JValue
  | .str s =>
    if strStartsWith s "\x7b" then jsonDecode s
    else .ok (coerceNum (.str s))
  | .obj l => .ok (.obj (objFromEntries (l.map (fun kv => (kv.1, coerceNum kv.2)))))
  | .arr l => .ok (.obj (objFromEntries
      ((indexedEntries l).map (fun kv => (kv.1, coerceNum kv.2)))))
  | v => .ok (coerceNum v)

/-- The `reduce`-into-`{}` loop building the flat-param filter object,
propagating a decoding failure of any value. -/
def qsConvertEntries (jsonDecode : String → Except JsError JValue) :
    Obj → Obj → Except JsError Obj
  | [], acc => .ok acc
  | (k, v) :: rest, acc =>
    match qsConvertValue jsonDecode v with
    | .error e => .error e
    | .ok w => qsConvertEntries jsonDecode rest (objSet acc k w)

/-- The `parseQueryString` of the flat-param variant, taking the already-decoded
result of `qs.parse(queryString, ...)`. `limit`/`offset` default when absent
or falsy (`x || default`), `count`/`justOne` are strict comparisons with the
string `"true"`, non-reserved entries are converted and then validated. -/
def qsParseQueryString (jsonDecode : String → Except JsError JValue)
    (parsedQuery : Obj) (allowedOperatorsOpt : Option (List String)) :
    Except JsError ParseQueryResult :=
  let limit := match jsGet parsedQuery "limit" with
    | some v => if truthy v then jsToNumber v else .num DefaultLimit
    | none => .num DefaultLimit
  let offset := match jsGet parsedQuery "offset" with
    | some v => if truthy v then jsToNumber v else .num DefaultOffset
    | none => .num DefaultOffset
  let sortv := match jsGet parsedQuery "sort" with
    | some v => if truthy v then v else .obj []
    | none => .obj []
  let countv := JValue.bool (match jsGet parsedQuery "count" with
    | some (.str s) => s == "true"
    | _ => false)
  let justOnev := JValue.bool (match jsGet parsedQuery "justOne" with
    | some (.str s) => s == "true"
    | _ => false)
  match qsConvertEntries jsonDecode
      (parsedQuery.filter (fun kv => !(ReservedKeys.contains kv.1))) [] with
  | .error e => .error e
  | .ok filters =>
    let allowedOperators := allowedOperatorsOpt.getD DefaultAllowedOperators
    match qsValidateOperators filters allowedOperators with
    | .error e => .error e
    | .ok _ =>
      .ok {
        filter := filters
        limit := limit
        offset := offset
        sort := sortv
        count := countv
        justOne := justOnev
        cacheTimeMs := 0 }

/-- Property deletion `delete o[k]`. -/
def jsDelete (o : Obj) (k : String) : Obj :=
  o.filter (fun kv => !(kv.1 == k))

/-- Value semantics of one step of `omitFields`: the shallow copy `{...item}`
followed by `fields.forEach((field) => delete result[field])`. -/
def omitRecord (item : Obj) (fields : List String) : Obj :=
  fields.foldl (fun res f => jsDelete res f) (objFromEntries item)

/-- The exposed `omitFields` (identical in both class variants): map the copy-and-delete
step over the records. -/
def omitFields (data : List Obj) (fields : List String) : List Obj :=
  data.map (fun item => omitRecord item fields)

/-- A heap of JavaScript objects: addresses are indices, allocation appends.
Used to state the non-mutation (frame) property of `omitFields`. -/
abbrev Heap := List Obj

/-- Heap-level `omitFields`: for each input address in order, allocate a fresh
shallow copy of the addressed record with the fields deleted from the copy
(the `delete` statements mutate only the freshly allocated object), returning
the extended heap and the fresh addresses in order. -/
def omitFieldsImp (h : Heap) (addrs : List ℕ) (fields : List String) :
    Heap × List ℕ :=
  addrs.foldl
    (fun st a =>
      let item := st.1.getD a []
      (st.1 ++ [omitRecord item fields], st.2 ++ [st.1.length]))
    (h, [])

/-- The caller-supplied options of `query` (`Query3Options<T>`); the opaque
`populate` directives are passed through to the collaborator and not modelled. -/
structure QueryOptions where
  omitFields : Option (List String) := none
  queryMongoose : Obj := []
  allowedOperators : Option (List String) := none

/-- Pagination metadata returned by `query`. -/
structure PaginationResult where
  totalRows : ℕ
  totalPages : JsNum

/-- The result envelope of `query`. -/
structure QueryResult where
  records : List Obj
  pagination : PaginationResult

/-- The document-store collaborator: an exact count and a find returning the
records for a filter, offset, limit and sort. -/
structure Collab where
  countDocuments : Obj → ℕ
  findDocs : Obj → JsNum → JsNum → JValue → List Obj

/-- One collaborator invocation, as recorded by `runQuery`. -/
inductive CollabCall where
  | count (filter : Obj)
  | find (filter : Obj) (offset limit : JsNum) (sort : JValue)

/-- The body of `query` after parsing (identical in both variants): merge the
parsed filter with `options.queryMongoose` (spread, options side last), count,
compute `totalPages = Math.ceil(totalRows / limit)`, fetch the page, optionally
omit fields. Returns the outcome together with the trace of collaborator calls
made; a parse/validation failure propagates with an empty trace. -/
def runQuery (parsed : Except JsError ParseQueryResult) (opts : QueryOptions)
    (c : Collab) : Except JsError QueryResult × List CollabCall :=
  match parsed with
  | .error e => (.error e, [])
  | .ok p =>
    let combinedFilter := jsSpread p.filter opts.queryMongoose
    let totalRows := c.countDocuments combinedFilter
    let totalPages := jsCeil (jsDiv (.num (natToRat totalRows)) p.limit)
    let records := c.findDocs combinedFilter p.offset p.limit p.sort
    let finalRecords := match opts.omitFields with
      | some fields => omitFields records fields
      | none => records
    (.ok { records := finalRecords,
           pagination := { totalRows := totalRows, totalPages := totalPages } },
     [.count combinedFilter, .find combinedFilter p.offset p.limit p.sort])

/-- The `query` entry point of the JSON-body variant. -/
def queryJson (queryObj : Obj) (opts : QueryOptions) (c : Collab) :
    Except JsError QueryResult × List CollabCall :=
  runQuery (jsonParseQueryString queryObj opts.allowedOperators) opts c

/-- The `query` entry point of the flat-param variant. -/
def queryQs (jsonDecode : String → Except JsError JValue) (parsedQuery : Obj)
    (opts : QueryOptions) (c : Collab) :
    Except JsError QueryResult × List CollabCall :=
  runQuery (qsParseQueryString jsonDecode parsedQuery opts.allowedOperators) opts c

/-- Specification-side description of operator validation (from the spec's
words): the first disallowed operator key, scanning filter entries in order
and, within each value of JavaScript object type, its own keys in order.
Values that are not of object type contribute no keys. -/
def specFirstViolation (q : Obj) (allowed : List String) : Option String :=
  match q with
  | [] => none
  | (_, v) :: rest =>
    match v with
    | .obj _ | .arr _ =>
      match (jsKeys v).find? (fun k => !(allowed.contains k)) with
      | some op => some op
      | none => specFirstViolation rest allowed
    | _ => specFirstViolation rest allowed

/-- The outcome the spec prescribes for operator validation: success without
a violation, otherwise an error citing the first offending operator key. -/
def specValidateOutcome (q : Obj) (allowed : List String) : Except JsError Unit :=
  match specFirstViolation q allowed with
  | none => .ok ()
  | some op => .error (.error (operatorErrMsg op))

/-- The inner key loop agrees with "first key not in the allow-list". -/
theorem checkKeys_eq (ks allowed : List String) :
    checkKeys ks allowed =
      match ks.find? (fun k => !(allowed.contains k)) with
      | none => .ok ()
      | some op => .error (.error (operatorErrMsg op)) := by
  induction ks with
  | nil => rfl
  | cons k rest ih =>
    by_cases hm : k ∈ allowed
    · simp [checkKeys, List.find?_cons, hm, ih]
    · simp [checkKeys, List.find?_cons, hm]

/-- All level-one operator keys of a filter are allow-listed. -/
def levelOneAllowed (q : Obj) (allowed : List String) : Prop :=
  ∀ kv ∈ q, ∀ k ∈ jsKeys kv.2, k ∈ allowed

/-- One scan step of the spec-side violation search. -/
theorem specFirstViolation_cons (f : String) (v : JValue) (rest : Obj)
    (allowed : List String) :
    specFirstViolation ((f, v) :: rest) allowed =
      match (jsKeys v).find? (fun k => !(allowed.contains k)) with
      | some op => some op
      | none => specFirstViolation rest allowed := by
  cases v <;> simp [specFirstViolation, jsKeys]

/-- Absence of a violation is exactly the level-one allow-list condition. -/
theorem specFirstViolation_eq_none_iff (q : Obj) (allowed : List String) :
    specFirstViolation q allowed = none ↔ levelOneAllowed q allowed := by
  induction q with
  | nil => simp [specFirstViolation, levelOneAllowed]
  | cons kv rest ih =>
    obtain ⟨f, v⟩ := kv
    rw [specFirstViolation_cons]
    cases hf : (jsKeys v).find? (fun k => !(allowed.contains k)) with
    | none =>
      rw [List.find?_eq_none] at hf
      simp only [ih, levelOneAllowed]
      constructor
      · intro h kv hkv k hk
        rcases List.mem_cons.mp hkv with h1 | h1
        · subst h1
          simpa using hf k hk
        · exact h kv h1 k hk
      · intro h kv hkv k hk
        exact h kv (List.mem_cons_of_mem _ hkv) k hk
    | some op =>
      simp only [levelOneAllowed]
      constructor
      · intro h
        cases h
      · intro h
        have hop := List.find?_some hf
        have hmem := List.mem_of_find?_eq_some hf
        have h2 := h (f, v) (List.mem_cons_self _ _) op hmem
        simp at hop
        exact absurd h2 hop

/-- Keys that are all allow-listed produce no `find?` hit. -/
theorem find?_disallowed_eq_none (ks allowed : List String)
    (h : ∀ k ∈ ks, k ∈ allowed) :
    ks.find? (fun k => !(allowed.contains k)) = none := by
  rw [List.find?_eq_none]
  intro x hx
  simpa using h x hx

/-- One scan step of the flat-param validator. -/
theorem qsValidateOperators_cons (f : String) (v : JValue) (rest : Obj)
    (allowed : List String) :
    qsValidateOperators ((f, v) :: rest) allowed =
      match checkKeys (jsKeys v) allowed with
      | .error e => .error e
      | .ok _ => qsValidateOperators rest allowed := by
  cases v <;> simp [qsValidateOperators, jsKeys, checkKeys]

/-- One scan step of the JSON-body validator, away from null values. -/
theorem jsonValidateOperators_cons (f : String) (v : JValue) (rest : Obj)
    (allowed : List String) (hv : v ≠ .null) :
    jsonValidateOperators ((f, v) :: rest) allowed =
      match checkKeys (jsKeys v) allowed with
      | .error e => .error e
      | .ok _ => jsonValidateOperators rest allowed := by
  cases v
  · exact absurd rfl hv
  all_goals simp [jsonValidateOperators, jsKeys, checkKeys]

/-- The flat-param validator realises the spec-side outcome exactly. -/
theorem qsValidateOperators_eq_spec (q : Obj) (allowed : List String) :
    qsValidateOperators q allowed = specValidateOutcome q allowed := by
  induction q with
  | nil => rfl
  | cons kv rest ih =>
    obtain ⟨f, v⟩ := kv
    rw [qsValidateOperators_cons, checkKeys_eq]
    simp only [specValidateOutcome, specFirstViolation_cons]
    cases hf : (jsKeys v).find? (fun k => !(allowed.contains k)) with
    | none => simpa [specValidateOutcome] using ih
    | some op => rfl

/-- The JSON-body validator realises the spec-side outcome exactly on filters
without null values. -/
theorem jsonValidateOperators_eq_spec (q : Obj) (allowed : List String) :
    (∀ kv ∈ q, kv.2 ≠ JValue.null) →
    jsonValidateOperators q allowed = specValidateOutcome q allowed := by
  induction q with
  | nil => intro _; rfl
  | cons kv rest ih =>
    intro h
    obtain ⟨f, v⟩ := kv
    have hv : v ≠ .null := h (f, v) (List.mem_cons_self _ _)
    rw [jsonValidateOperators_cons f v rest allowed hv, checkKeys_eq]
    simp only [specValidateOutcome, specFirstViolation_cons]
    cases hf : (jsKeys v).find? (fun k => !(allowed.contains k)) with
    | none =>
      have := ih (fun kv hkv => h kv (List.mem_cons_of_mem _ hkv))
      simpa [specValidateOutcome] using this
    | some op => rfl

/-- On a filter whose level-one keys are all allow-listed but which binds some
field to `null`, the JSON-body validator raises the `TypeError` of
`Object.keys(null)`. -/
theorem jsonValidateOperators_null_typeError (q : Obj) (allowed : List String) :
    levelOneAllowed q allowed → (∃ kv ∈ q, kv.2 = JValue.null) →
    jsonValidateOperators q allowed =
      .error (.typeError "Cannot convert undefined or null to object") := by
  induction q with
  | nil =>
    intro _ h
    simp at h
  | cons kv rest ih =>
    intro hok hex
    obtain ⟨f, v⟩ := kv
    by_cases hv : v = JValue.null
    · subst hv
      rfl
    · rw [jsonValidateOperators_cons f v rest allowed hv, checkKeys_eq,
        find?_disallowed_eq_none _ _ (hok (f, v) (List.mem_cons_self _ _))]
      apply ih (fun kv hkv k hk => hok kv (List.mem_cons_of_mem _ hkv) k hk)
      obtain ⟨kv', hkv', hnull'⟩ := hex
      rcases List.mem_cons.mp hkv' with h1 | h1
      · rw [h1] at hnull'
        exact absurd hnull' hv
      · exact ⟨kv', h1, hnull'⟩

/-- Reading an empty object. -/
theorem jsGet_nil (k : String) : jsGet [] k = none := rfl

/-- Reading a cons cell. -/
theorem jsGet_cons (kv : String × JValue) (t : Obj) (k : String) :
    jsGet (kv :: t) k = if kv.1 == k then some kv.2 else jsGet t k := by
  cases h : (kv.1 == k) <;> simp [jsGet, List.find?_cons, h]

/-- Keys of a cons cell. -/
theorem objKeys_cons (kv : String × JValue) (t : Obj) :
    objKeys (kv :: t) = kv.1 :: objKeys t := rfl

/-- Keys of a concatenation. -/
theorem objKeys_append (a b : Obj) :
    objKeys (a ++ b) = objKeys a ++ objKeys b := by
  simp [objKeys]

/-- Reading a concatenation: the left list wins. -/
theorem jsGet_append (a b : Obj) (k : String) :
    jsGet (a ++ b) k =
      match jsGet a k with
      | some v => some v
      | none => jsGet b k := by
  induction a with
  | nil => rw [List.nil_append, jsGet_nil]
  | cons kv t ih =>
    rw [List.cons_append, jsGet_cons, jsGet_cons]
    by_cases hk : (kv.1 == k) = true
    · rw [if_pos hk, if_pos hk]
    · rw [if_neg hk, if_neg hk, ih]

/-- The in-place update of an existing key does not change the key list. -/
theorem objKeys_map_set (o : Obj) (k : String) (v : JValue) :
    objKeys (o.map (fun kv => if kv.1 == k then (k, v) else kv)) = objKeys o := by
  induction o with
  | nil => rfl
  | cons kv t ih =>
    rw [List.map_cons, objKeys_cons, objKeys_cons, ih]
    by_cases hk : (kv.1 == k) = true
    · have hkk : kv.1 = k := by simpa using hk
      rw [if_pos hk, hkk]
    · rw [if_neg hk]

/-- Reading back an existing key after its in-place update. -/
theorem jsGet_map_set (o : Obj) (k : String) (v : JValue)
    (h : o.any (fun kv => kv.1 == k) = true) :
    jsGet (o.map (fun kv => if kv.1 == k then (k, v) else kv)) k = some v := by
  induction o with
  | nil => cases h
  | cons kv t ih =>
    rw [List.map_cons, jsGet_cons]
    by_cases hk : (kv.1 == k) = true
    · simp only [if_pos hk]
      simp
    · have h' : t.any (fun kv => kv.1 == k) = true := by
        rcases List.any_eq_true.mp h with ⟨x, hx, hb⟩
        rcases List.mem_cons.mp hx with h1 | h1
        · rw [h1] at hb
          exact absurd hb hk
        · exact List.any_eq_true.mpr ⟨x, h1, hb⟩
      simp only [if_neg hk]
      exact ih h'

/-- Reading another key after an in-place update. -/
theorem jsGet_map_set_ne (o : Obj) (k k' : String) (v : JValue) (hne : k' ≠ k) :
    jsGet (o.map (fun kv => if kv.1 == k then (k, v) else kv)) k' = jsGet o k' := by
  induction o with
  | nil => rfl
  | cons kv t ih =>
    rw [List.map_cons, jsGet_cons, jsGet_cons]
    by_cases hk : (kv.1 == k) = true
    · have hkk : kv.1 = k := by simpa using hk
      have h1 : (k == k') = false := by
        simpa using fun e => hne e.symm
      have h2 : (kv.1 == k') = false := by
        rw [hkk]
        exact h1
      simp only [if_pos hk, h1, h2, Bool.false_eq_true, if_false]
      exact ih
    · simp only [if_neg hk]
      by_cases hk' : (kv.1 == k') = true
      · rw [if_pos hk', if_pos hk']
      · rw [if_neg hk', if_neg hk', ih]

/-- No binding for a key means no `find?` hit for it. -/
theorem jsGet_eq_none_of_not_any (o : Obj) (k : String)
    (hp : ¬ o.any (fun kv => kv.1 == k) = true) :
    jsGet o k = none := by
  rw [jsGet]
  have hfind : o.find? (fun kv => kv.1 == k) = none := by
    rw [List.find?_eq_none]
    intro kv hkv hb
    exact hp (List.any_eq_true.mpr ⟨kv, hkv, hb⟩)
  rw [hfind]
  rfl

/-- Key list after a property write. -/
theorem objKeys_objSet (o : Obj) (k : String) (v : JValue) :
    objKeys (objSet o k v) =
      if o.any (fun kv => kv.1 == k) then objKeys o else objKeys o ++ [k] := by
  rw [objSet]
  by_cases hp : o.any (fun kv => kv.1 == k) = true
  · rw [if_pos hp, if_pos hp, objKeys_map_set]
  · rw [if_neg hp, if_neg hp, objKeys_append]
    rfl

/-- Key membership after a property write. -/
theorem mem_objKeys_objSet (o : Obj) (k k' : String) (v : JValue) :
    k' ∈ objKeys (objSet o k v) ↔ k' ∈ objKeys o ∨ k' = k := by
  rw [objKeys_objSet]
  by_cases hp : o.any (fun kv => kv.1 == k) = true
  · rw [if_pos hp]
    constructor
    · exact Or.inl
    · rintro (h1 | rfl)
      · exact h1
      · obtain ⟨kv, hkv, hb⟩ := List.any_eq_true.mp hp
        have hkk : kv.1 = k' := by simpa using hb
        rw [← hkk]
        exact List.mem_map_of_mem _ hkv
  · rw [if_neg hp]
    simp

/-- Property read after a property write. -/
theorem jsGet_objSet (o : Obj) (k k' : String) (v : JValue) :
    jsGet (objSet o k v) k' = if k' = k then some v else jsGet o k' := by
  by_cases he : k' = k
  · subst he
    rw [if_pos rfl, objSet]
    by_cases hp : o.any (fun kv => kv.1 == k') = true
    · rw [if_pos hp]
      exact jsGet_map_set o k' v hp
    · rw [if_neg hp, jsGet_append, jsGet_eq_none_of_not_any o k' hp]
      simp [jsGet_cons]
  · rw [if_neg he, objSet]
    by_cases hp : o.any (fun kv => kv.1 == k) = true
    · rw [if_pos hp]
      exact jsGet_map_set_ne o k k' v he
    · rw [if_neg hp, jsGet_append]
      have h1 : (k == k') = false := by
        simpa using fun e => he e.symm
      cases ho : jsGet o k' with
      | some w => rfl
      | none => simp [jsGet_cons, h1, jsGet_nil]

/-- Folding assignments over entries none of which bind `k` leaves `k`'s
binding unchanged. -/
theorem jsGet_foldl_not_mem (l : Obj) (k : String) :
    ∀ acc : Obj, k ∉ objKeys l →
      jsGet (l.foldl (fun acc kv => objSet acc kv.1 kv.2) acc) k = jsGet acc k := by
  induction l with
  | nil =>
    intro acc _
    rfl
  | cons kv t ih =>
    intro acc h
    rw [List.foldl_cons]
    have hk : k ∉ objKeys t := by
      intro hm
      exact h (by rw [objKeys_cons]; exact List.mem_cons_of_mem _ hm)
    have hne : k ≠ kv.1 := by
      intro e
      exact h (by rw [objKeys_cons, e]; exact List.mem_cons_self _ _)
    rw [ih _ hk, jsGet_objSet, if_neg hne]

/-- Folding assignments over entries with pairwise-distinct keys, one of which
is `k`, yields `k`'s unique binding regardless of the accumulator. -/
theorem jsGet_foldl_nodup (b : Obj) (k : String) :
    ∀ acc : Obj, k ∈ objKeys b → (objKeys b).Nodup →
      jsGet (b.foldl (fun acc kv => objSet acc kv.1 kv.2) acc) k = jsGet b k := by
  induction b with
  | nil =>
    intro acc h _
    cases h
  | cons kv t ih =>
    intro acc hmem hnd
    rw [List.foldl_cons, jsGet_cons]
    rw [objKeys_cons] at hmem hnd
    by_cases he : k = kv.1
    · have hnotin : k ∉ objKeys t := by
        rw [he]
        exact (List.nodup_cons.mp hnd).1
      have hbe : (kv.1 == k) = true := by simp [he.symm]
      rw [jsGet_foldl_not_mem t k _ hnotin, jsGet_objSet, if_pos he, if_pos hbe]
    · have hmem' : k ∈ objKeys t := by
        rcases List.mem_cons.mp hmem with h1 | h1
        · exact absurd h1 he
        · exact h1
      have hbe : (kv.1 == k) = false := by
        simpa using fun e => he e.symm
      rw [ih _ hmem' (List.nodup_cons.mp hnd).2, if_neg (by simp [hbe])]

/-- Key membership of the object built by folding assignments. -/
theorem mem_objKeys_foldl (l : Obj) (k : String) :
    ∀ acc : Obj,
      k ∈ objKeys (l.foldl (fun acc kv => objSet acc kv.1 kv.2) acc) ↔
        k ∈ objKeys acc ∨ k ∈ objKeys l := by
  induction l with
  | nil =>
    intro acc
    simp [objKeys]
  | cons kv t ih =>
    intro acc
    rw [List.foldl_cons, ih, mem_objKeys_objSet, objKeys_cons, List.mem_cons]
    tauto

/-- Key membership survives `objFromEntries` in both directions. -/
theorem mem_objKeys_objFromEntries (l : Obj) (k : String) :
    k ∈ objKeys (objFromEntries l) ↔ k ∈ objKeys l := by
  rw [objFromEntries, mem_objKeys_foldl]
  simp [objKeys]

/-- Folding assignments preserves distinctness of keys. -/
theorem objKeys_foldl_nodup (l : Obj) :
    ∀ acc : Obj, (objKeys acc).Nodup →
      (objKeys (l.foldl (fun acc kv => objSet acc kv.1 kv.2) acc)).Nodup := by
  induction l with
  | nil =>
    intro acc h
    exact h
  | cons kv t ih =>
    intro acc h
    rw [List.foldl_cons]
    apply ih
    rw [objKeys_objSet]
    by_cases hp : acc.any (fun x => x.1 == kv.1) = true
    · rw [if_pos hp]
      exact h
    · rw [if_neg hp]
      have hni : kv.1 ∉ objKeys acc := by
        intro hm
        obtain ⟨x, hx, he⟩ := List.mem_map.mp hm
        exact hp (List.any_eq_true.mpr ⟨x, hx, by simp [he]⟩)
      simp [List.nodup_append, h, hni]

/-- The keys of a built object are pairwise distinct. -/
theorem objFromEntries_keys_nodup (l : Obj) :
    (objKeys (objFromEntries l)).Nodup := by
  rw [objFromEntries]
  exact objKeys_foldl_nodup l [] (by simp [objKeys])

/-- On entry lists forming a nodup-key extension of the accumulator, folding
assignments is concatenation. -/
theorem foldl_objSet_eq_append (l : Obj) :
    ∀ acc : Obj, (objKeys (acc ++ l)).Nodup →
      l.foldl (fun acc kv => objSet acc kv.1 kv.2) acc = acc ++ l := by
  induction l with
  | nil =>
    intro acc _
    simp
  | cons kv t ih =>
    intro acc h
    rw [List.foldl_cons]
    have hkni : kv.1 ∉ objKeys acc := by
      rw [objKeys_append, objKeys_cons] at h
      intro hm
      exact (List.nodup_append.mp h).2.2 hm (List.mem_cons_self _ _)
    have hany : ¬ acc.any (fun x => x.1 == kv.1) = true := by
      intro hp
      obtain ⟨x, hx, hb⟩ := List.any_eq_true.mp hp
      have hx1 : x.1 = kv.1 := by simpa using hb
      exact hkni (hx1 ▸ List.mem_map_of_mem _ hx)
    have hset : objSet acc kv.1 kv.2 = acc ++ [kv] := by
      rw [objSet, if_neg hany]
    rw [hset, ih (acc ++ [kv]) ?hnd, List.append_assoc, List.singleton_append]
    case hnd =>
      rw [List.append_assoc, List.singleton_append]
      exact h

/-- The builder `objFromEntries` is the identity on objects with distinct keys. -/
theorem objFromEntries_eq_self (o : Obj) (h : (objKeys o).Nodup) :
    objFromEntries o = o := by
  rw [objFromEntries, foldl_objSet_eq_append o [] (by simpa [objKeys] using h)]
  simp

/-- The delete loop of `omitFields` is a filter on the key set. -/
theorem omitDeletes_eq_filter (fs : List String) :
    ∀ o : Obj, fs.foldl (fun res f => jsDelete res f) o =
      o.filter (fun kv => !(fs.contains kv.1)) := by
  induction fs with
  | nil =>
    intro o
    simp
  | cons f t ih =>
    intro o
    rw [List.foldl_cons, ih (jsDelete o f), jsDelete, List.filter_filter]
    apply List.filter_congr
    intro kv _
    by_cases hf : kv.1 = f <;> by_cases ht : kv.1 ∈ t <;> simp [hf, ht]

/-- Filtering only removes keys. -/
theorem objKeys_filter_sublist (o : Obj) (p : String × JValue → Bool) :
    (objKeys (o.filter p)).Sublist (objKeys o) := by
  simpa [objKeys] using (List.filter_sublist o).map (fun kv : String × JValue => kv.1)

/-- The record produced by the copy-and-delete step has distinct keys. -/
theorem omitRecord_keys_nodup (item : Obj) (fields : List String) :
    (objKeys (omitRecord item fields)).Nodup := by
  rw [omitRecord, omitDeletes_eq_filter]
  exact (objFromEntries_keys_nodup item).sublist (objKeys_filter_sublist _ _)

/-- The copy-and-delete step is a filter of the deduplicated record. -/
theorem omitRecord_eq_filter (item : Obj) (fields : List String) :
    omitRecord item fields =
      (objFromEntries item).filter (fun kv => !(fields.contains kv.1)) := by
  show fields.foldl (fun res f => jsDelete res f) (objFromEntries item) = _
  rw [omitDeletes_eq_filter]

/-- Copy-and-delete is idempotent on a single record. -/
theorem omitRecord_idem (item : Obj) (fields : List String) :
    omitRecord (omitRecord item fields) fields = omitRecord item fields := by
  have hnd := omitRecord_keys_nodup item fields
  have h1 : omitRecord (omitRecord item fields) fields =
      (omitRecord item fields).filter (fun kv => !(fields.contains kv.1)) := by
    show fields.foldl (fun res f => jsDelete res f)
        (objFromEntries (omitRecord item fields)) = _
    rw [objFromEntries_eq_self _ hnd, omitDeletes_eq_filter]
  rw [h1]
  conv_lhs => rw [omitRecord_eq_filter]
  rw [omitRecord_eq_filter, List.filter_filter]
  apply List.filter_congr
  intro kv _
  cases h : fields.contains kv.1 <;> simp [h]

/-- Unfolding the heap-level `omitFields` loop: the heap is only extended, old
addresses keep their contents, and the outputs are the freshly allocated
copies in input order. -/
theorem omitFieldsImp_foldl (fields : List String) (addrs : List ℕ) :
    ∀ (H : Heap) (out0 : List ℕ), (∀ a ∈ addrs, a < H.length) →
      addrs.foldl
        (fun st a =>
          (st.1 ++ [omitRecord (st.1.getD a []) fields], st.2 ++ [st.1.length]))
        (H, out0) =
      (H ++ addrs.map (fun a => omitRecord (H.getD a []) fields),
       out0 ++ (List.range addrs.length).map (fun i => H.length + i)) := by
  induction addrs with
  | nil =>
    intro H out0 _
    simp
  | cons a t ih =>
    intro H out0 hvalid
    have ha : a < H.length := hvalid a (List.mem_cons_self _ _)
    rw [List.foldl_cons]
    rw [ih (H ++ [omitRecord (H.getD a []) fields]) (out0 ++ [H.length])
      (by
        intro x hx
        have := hvalid x (List.mem_cons_of_mem _ hx)
        rw [List.length_append]
        omega)]
    refine Prod.ext ?_ ?_
    · show H ++ [omitRecord (H.getD a []) fields] ++
          t.map (fun a' => omitRecord ((H ++ [omitRecord (H.getD a []) fields]).getD a' []) fields) =
        H ++ (a :: t).map (fun a' => omitRecord (H.getD a' []) fields)
      rw [List.map_cons, List.append_assoc, List.singleton_append]
      congr 2
      apply List.map_congr_left
      intro a' ha'
      rw [List.getD_append _ _ _ _ (hvalid a' (List.mem_cons_of_mem _ ha'))]
    · show out0 ++ [H.length] ++
          (List.range t.length).map
            (fun i => (H ++ [omitRecord (H.getD a []) fields]).length + i) =
        out0 ++ (List.range (t.length + 1)).map (fun i => H.length + i)
      rw [List.append_assoc, List.singleton_append]
      congr 1
      rw [List.range_succ_eq_map, List.map_cons, List.map_map]
      congr 1
      apply List.map_congr_left
      intro i _
      simp only [Function.comp, List.length_append, List.length_singleton]
      omega

/-- Closed form of the heap-level `omitFields` on valid input addresses. -/
theorem omitFieldsImp_spec (h : Heap) (addrs : List ℕ) (fields : List String)
    (hvalid : ∀ a ∈ addrs, a < h.length) :
    omitFieldsImp h addrs fields =
      (h ++ addrs.map (fun a => omitRecord (h.getD a []) fields),
       (List.range addrs.length).map (fun i => h.length + i)) := by
  have hh := omitFieldsImp_foldl fields addrs h [] hvalid
  simpa [omitFieldsImp] using hh

/-- Key membership in an object spread. -/
theorem mem_objKeys_jsSpread (a b : Obj) (k : String) :
    k ∈ objKeys (jsSpread a b) ↔ k ∈ objKeys a ∨ k ∈ objKeys b := by
  rw [jsSpread, mem_objKeys_objFromEntries, objKeys_append, List.mem_append]

/-- On any key bound by the right-hand (extra) object with distinct keys, the
spread returns the right-hand binding. -/
theorem jsGet_jsSpread_right (a b : Obj) (k : String)
    (hmem : k ∈ objKeys b) (hnd : (objKeys b).Nodup) :
    jsGet (jsSpread a b) k = jsGet b k := by
  rw [jsSpread, objFromEntries, List.foldl_append]
  exact jsGet_foldl_nodup b k _ hmem hnd

/-- Characterisation of a successful JSON-body parse. -/
theorem jsonParseQueryString_ok (query : Obj) (ao : Option (List String))
    (p : ParseQueryResult) (h : jsonParseQueryString query ao = .ok p) :
    p = { filter := objFromEntries
            ((query.filter (fun kv => !(ReservedKeys.contains kv.1))).map
              (fun kv => (kv.1, match kv.2 with
                | .null => spreadToObj kv.2
                | .obj l => spreadToObj (.obj l)
                | .arr l => spreadToObj (.arr l)
                | v => v)))
          limit := jsToNumber ((jsGet query "limit").getD (.num DefaultLimit))
          offset := jsToNumber ((jsGet query "offset").getD (.num DefaultOffset))
          sort := match jsGet query "sort" with
            | some v => if truthy v then v else .obj []
            | none => .obj []
          count := (jsGet query "count").getD (.bool false)
          justOne := (jsGet query "justOne").getD (.bool false)
          cacheTimeMs := 0 } := by
  simp only [jsonParseQueryString] at h
  split at h
  · cases h
  · injection h with h
    exact h.symm

/-- Characterisation of a successful flat-param parse. -/
theorem qsParseQueryString_ok (jd : String → Except JsError JValue)
    (pq : Obj) (ao : Option (List String)) (p : ParseQueryResult)
    (h : qsParseQueryString jd pq ao = .ok p) :
    ∃ filters,
      qsConvertEntries jd (pq.filter (fun kv => !(ReservedKeys.contains kv.1))) []
        = .ok filters ∧
      p = { filter := filters
            limit := match jsGet pq "limit" with
              | some v => if truthy v then jsToNumber v else .num DefaultLimit
              | none => .num DefaultLimit
            offset := match jsGet pq "offset" with
              | some v => if truthy v then jsToNumber v else .num DefaultOffset
              | none => .num DefaultOffset
            sort := match jsGet pq "sort" with
              | some v => if truthy v then v else .obj []
              | none => .obj []
            count := JValue.bool (match jsGet pq "count" with
              | some (.str s) => s == "true"
              | _ => false)
            justOne := JValue.bool (match jsGet pq "justOne" with
              | some (.str s) => s == "true"
              | _ => false)
            cacheTimeMs := 0 } := by
  simp only [qsParseQueryString] at h
  split at h
  · cases h
  · rename_i filters hf
    split at h
    · cases h
    · injection h with h
      exact ⟨filters, hf, h.symm⟩

/-- Unfolding a `query` run on a successful parse. -/
theorem runQuery_ok (p : ParseQueryResult) (opts : QueryOptions) (c : Collab) :
    runQuery (.ok p) opts c =
      (.ok { records :=
              match opts.omitFields with
              | some fields =>
                omitFields
                  (c.findDocs (jsSpread p.filter opts.queryMongoose) p.offset p.limit p.sort)
                  fields
              | none =>
                c.findDocs (jsSpread p.filter opts.queryMongoose) p.offset p.limit p.sort,
             pagination :=
              { totalRows := c.countDocuments (jsSpread p.filter opts.queryMongoose),
                totalPages := jsCeil (jsDiv
                  (.num (natToRat (c.countDocuments (jsSpread p.filter opts.queryMongoose))))
                  p.limit) } },
       [CollabCall.count (jsSpread p.filter opts.queryMongoose),
        CollabCall.find (jsSpread p.filter opts.queryMongoose) p.offset p.limit p.sort]) :=
  rfl

/-- The embedding of `natToRat` into the rationals is the numeral cast. -/
theorem natToRat_eq_cast (n : ℕ) : natToRat n = (n : ℚ) := by
  rw [natToRat, Rat.mkRat_one]
  push_cast
  rfl

/-- Computing `Math.ceil(n / L)` for a natural count and a nonzero finite limit gives the
mathematical ceiling. -/
theorem jsCeil_jsDiv_num (n : ℕ) (L : ℚ) (hL : L ≠ 0) :
    jsCeil (jsDiv (.num (natToRat n)) (.num L)) =
      .num ((⌈(n : ℚ) / L⌉ : ℤ) : ℚ) := by
  have hLn : ¬ L.num = 0 := by
    simpa using Rat.num_ne_zero.mpr hL
  show jsCeil (if L.num = 0 then _ else .num (jsDivQ (natToRat n) L)) = _
  rw [if_neg hLn]
  show JsNum.num (mkRat (ratCeil (jsDivQ (natToRat n) L)) 1) = _
  rw [Rat.mkRat_one, ratCeil_eq_ceil, jsDivQ_eq_div _ _ hL, natToRat_eq_cast]

/-- Rewriting values entrywise does not change the key list. -/
theorem objKeys_map_value (l : Obj) (f : String × JValue → JValue) :
    objKeys (l.map (fun kv => (kv.1, f kv))) = objKeys l := by
  simp [objKeys, List.map_map, Function.comp]

/-- Keys surviving the reserved-key filter. -/
theorem mem_objKeys_filter_reserved (l : Obj) (k : String) :
    k ∈ objKeys (l.filter (fun kv => !(ReservedKeys.contains kv.1))) ↔
      k ∈ objKeys l ∧ ¬ k ∈ ReservedKeys := by
  simp only [objKeys, List.mem_map, List.mem_filter]
  constructor
  · rintro ⟨kv, ⟨hm, hp⟩, rfl⟩
    refine ⟨⟨kv, hm, rfl⟩, ?_⟩
    simpa using hp
  · rintro ⟨⟨kv, hm, rfl⟩, hr⟩
    exact ⟨kv, ⟨hm, by simpa using hr⟩, rfl⟩

/-- The flat-param conversion loop preserves key membership. -/
theorem qsConvertEntries_keys (jd : String → Except JsError JValue) (l : Obj) :
    ∀ (acc filters : Obj), qsConvertEntries jd l acc = .ok filters →
      ∀ k, k ∈ objKeys filters ↔ k ∈ objKeys acc ∨ k ∈ objKeys l := by
  induction l with
  | nil =>
    intro acc filters h k
    injection h with h
    subst h
    simp [objKeys]
  | cons kv rest ih =>
    intro acc filters h k
    obtain ⟨k0, v⟩ := kv
    simp only [qsConvertEntries] at h
    split at h
    · cases h
    · rename_i w hw
      rw [ih _ _ h k, mem_objKeys_objSet, objKeys_cons, List.mem_cons]
      tauto

/-- The JSON-body validator depends only on the list of filter values, not on
the field names. -/
theorem jsonValidateOperators_values (q1 q2 : Obj) (allowed : List String)
    (h : q1.map (fun kv => kv.2) = q2.map (fun kv => kv.2)) :
    jsonValidateOperators q1 allowed = jsonValidateOperators q2 allowed := by
  induction q1 generalizing q2 with
  | nil =>
    cases q2 with
    | nil => rfl
    | cons kv t => cases h
  | cons kv t ih =>
    cases q2 with
    | nil => cases h
    | cons kv' t' =>
      obtain ⟨f, v⟩ := kv
      obtain ⟨f', v'⟩ := kv'
      simp only [List.map_cons, List.cons.injEq] at h
      obtain ⟨hv, ht⟩ := h
      subst hv
      by_cases hn : v = JValue.null
      · subst hn
        rfl
      · rw [jsonValidateOperators_cons f v t allowed hn,
          jsonValidateOperators_cons f' v t' allowed hn, ih t' ht]

/-- The flat-param validator depends only on the list of filter values. -/
theorem qsValidateOperators_values (q1 q2 : Obj) (allowed : List String)
    (h : q1.map (fun kv => kv.2) = q2.map (fun kv => kv.2)) :
    qsValidateOperators q1 allowed = qsValidateOperators q2 allowed := by
  induction q1 generalizing q2 with
  | nil =>
    cases q2 with
    | nil => rfl
    | cons kv t => cases h
  | cons kv t ih =>
    cases q2 with
    | nil => cases h
    | cons kv' t' =>
      obtain ⟨f, v⟩ := kv
      obtain ⟨f', v'⟩ := kv'
      simp only [List.map_cons, List.cons.injEq] at h
      obtain ⟨hv, ht⟩ := h
      subst hv
      rw [qsValidateOperators_cons, qsValidateOperators_cons, ih t' ht]

/-- A prefix-test on an immediate extension succeeds. -/
theorem isPrefixOf_append (l l' : List Char) : l.isPrefixOf (l ++ l') = true := by
  induction l with
  | nil => simp [List.isPrefixOf]
  | cons c t ih => simp [List.isPrefixOf, ih]

/-- The middle part of a concatenation is a substring. -/
theorem strContains_append_mid (a b c : String) :
    strContains (a ++ b ++ c) b = true := by
  rw [strContains]
  refine List.any_eq_true.mpr ⟨b.toList ++ c.toList, ?_, ?_⟩
  · rw [List.mem_tails]
    have h : (a ++ b ++ c).toList = (a.toList ++ b.toList) ++ c.toList := rfl
    rw [h]
    exact ⟨a.toList, (List.append_assoc _ _ _).symm⟩
  · exact isPrefixOf_append _ _

/-- C1 (amended). For every filter and every allow-list: the flat-param
`validateOperators` returns without error exactly when no disallowed operator
key occurs one level deep, and otherwise throws on the first violation in scan
order an `Error` whose message cites the offending operator's exact key — the
message does not include the field the operator occurs under; the JSON-body
variant behaves identically on every filter binding no field to `null` (null
and array values have JavaScript type `object` and are inspected too: a null
value raises a `TypeError` in the JSON-body variant, and an array value is
checked by its index keys). -/
theorem c1_validateOperators_firstViolation (q : Obj) (allowed : List String) :
    qsValidateOperators q allowed = specValidateOutcome q allowed ∧
    ((∀ kv ∈ q, kv.2 ≠ JValue.null) →
      jsonValidateOperators q allowed = specValidateOutcome q allowed) ∧
    (∀ op, strContains (operatorErrMsg op) op = true) :=
  ⟨qsValidateOperators_eq_spec q allowed,
   jsonValidateOperators_eq_spec q allowed,
   fun op => strContains_append_mid "Operator \x27" op "\x27 is not allowed."⟩

/-- C1 witness: a compliant filter passes both validators, a filter with a
disallowed operator fails citing exactly that operator. -/
theorem c1_validateOperators_firstViolation_witness :
    qsValidateOperators [("age", .obj [("$gte", .num 18)]), ("name", .str "x")]
      ["$gte"] = .ok () ∧
    jsonValidateOperators [("age", .obj [("$bad", .num 30)])] ["$gte"]
      = .error (.error (operatorErrMsg "$bad")) ∧
    strContains (operatorErrMsg "$bad") "$bad" = true := by
  obtain ⟨h1, -, h3⟩ := c1_validateOperators_firstViolation
    [("age", .obj [("$gte", .num 18)]), ("name", .str "x")] ["$gte"]
  obtain ⟨-, h2, -⟩ := c1_validateOperators_firstViolation
    [("age", .obj [("$bad", .num 30)])] ["$gte"]
  refine ⟨?_, ?_, h3 "$bad"⟩
  · rw [h1]
    rfl
  · rw [h2 ?hnn]
    · rfl
    case hnn =>
      intro kv hkv
      rcases List.mem_singleton.mp hkv with rfl
      intro hn
      cases hn

/-- C1 counterexample: (i) on the filter `{x: null}` — which has no
nested-mapping value at all — the JSON-body `validateOperators` does not
return without error but raises a `TypeError`; (ii) the error thrown for
`{age: {$bad: 30}}` cites the operator `$bad` but does not cite the field
`age`, contradicting "an error citing that operator's exact key and the field
it occurs under". -/
theorem c1_counterexample :
    jsonValidateOperators [("x", JValue.null)] DefaultAllowedOperators
      = .error (.typeError "Cannot convert undefined or null to object") ∧
    (Except.error (JsError.typeError "Cannot convert undefined or null to object")
      ≠ (Except.ok () : Except JsError Unit)) ∧
    jsonValidateOperators [("age", .obj [("$bad", .num 30)])] ["$gte"]
      = .error (.error (operatorErrMsg "$bad")) ∧
    strContains (operatorErrMsg "$bad") "age" = false := by
  refine ⟨rfl, ?_, rfl, by decide⟩
  intro h
  cases h

/-- C2 (amended). For every completed `query` run whose parsed limit is a
nonzero finite number `L`, `totalPages` is exactly `⌈totalRows / L⌉`, and
`totalRows = 0` forces `totalPages = 0`. (When the requested limit is `0` the
division yields `NaN` or an infinity and `totalPages` is not `0`; see the
counterexample.) -/
theorem c2_totalPages_ceil (p : ParseQueryResult) (opts : QueryOptions)
    (c : Collab) (L : ℚ) (hlim : p.limit = JsNum.num L) (hL : L ≠ 0)
    (r : QueryResult) (calls : List CollabCall)
    (h : runQuery (.ok p) opts c = (.ok r, calls)) :
    r.pagination.totalPages = .num ((⌈(r.pagination.totalRows : ℚ) / L⌉ : ℤ) : ℚ) ∧
    (r.pagination.totalRows = 0 → r.pagination.totalPages = .num 0) := by
  rw [runQuery_ok] at h
  injection h with h1 h2
  injection h1 with h1
  have hrows : r.pagination.totalRows
      = c.countDocuments (jsSpread p.filter opts.queryMongoose) := by
    rw [← h1]
  have hpages : r.pagination.totalPages
      = jsCeil (jsDiv
          (.num (natToRat (c.countDocuments (jsSpread p.filter opts.queryMongoose))))
          p.limit) := by
    rw [← h1]
  constructor
  · rw [hpages, hlim, jsCeil_jsDiv_num _ _ hL, hrows]
  · intro h0
    rw [hrows] at h0
    rw [hpages, hlim, jsCeil_jsDiv_num _ _ hL, h0]
    norm_num

/-- C2 witness: a run with limit 5 and 12 matching rows. -/
theorem c2_totalPages_ceil_witness :
    jsCeil (jsDiv (.num (natToRat 12)) (JsNum.num 5))
      = .num ((⌈((12 : ℕ) : ℚ) / 5⌉ : ℤ) : ℚ) ∧
    jsCeil (jsDiv (.num (natToRat 12)) (JsNum.num 5)) = .num 3 := by
  have h := c2_totalPages_ceil
    ⟨[], JsNum.num 5, JsNum.num 0, JValue.obj [], JValue.bool false, JValue.bool false, 0⟩
    {} ⟨fun _ => 12, fun _ _ _ _ => []⟩ 5 rfl (by decide) _ _ rfl
  refine ⟨h.1, ?_⟩
  rw [show (⌈((12 : ℕ) : ℚ) / 5⌉ : ℤ) = 3 by norm_num [Int.ceil_eq_iff]] at h
  exact h.1

/-- C2 counterexample: with the requested limit `"0"` and zero matching rows,
the run completes with `totalRows = 0` but `totalPages = NaN`, not `0` — the
edge case does not hold "regardless of the requested limit". -/
theorem c2_counterexample :
    queryQs (fun _ => .error (.syntaxError "unused")) [("limit", .str "0")]
      {} ⟨fun _ => 0, fun _ _ _ _ => []⟩ =
      (.ok { records := [],
             pagination := { totalRows := 0, totalPages := JsNum.nan } },
       [.count [], .find [] (.num DefaultOffset) (.num 0) (.obj [])]) ∧
    JsNum.nan ≠ JsNum.num 0 := by
  refine ⟨rfl, by decide⟩

/-- C3 (amended). In the flat-param variant, an absent or falsy `limit`
(resp. `offset`) parses to the default 20 (resp. 0); in the JSON-body variant
the default applies only when the key is absent (a present falsy value is
`Number`-coerced instead); in both variants a truthy numeric-string value is
coerced to the number it denotes (not necessarily an integer). -/
theorem c3_limit_offset_defaults :
    (∀ jd pq ao p, qsParseQueryString jd pq ao = .ok p →
      ((jsGet pq "limit" = none ∨ ∃ v, jsGet pq "limit" = some v ∧ truthy v = false) →
        p.limit = .num DefaultLimit) ∧
      ((jsGet pq "offset" = none ∨ ∃ v, jsGet pq "offset" = some v ∧ truthy v = false) →
        p.offset = .num DefaultOffset) ∧
      (∀ s x, jsGet pq "limit" = some (.str s) → truthy (.str s) = true →
        strToNum s = some x → p.limit = .num x) ∧
      (∀ s x, jsGet pq "offset" = some (.str s) → truthy (.str s) = true →
        strToNum s = some x → p.offset = .num x)) ∧
    (∀ query ao p, jsonParseQueryString query ao = .ok p →
      (jsGet query "limit" = none → p.limit = .num DefaultLimit) ∧
      (jsGet query "offset" = none → p.offset = .num DefaultOffset) ∧
      (∀ s x, jsGet query "limit" = some (.str s) → strToNum s = some x →
        p.limit = .num x) ∧
      (∀ s x, jsGet query "offset" = some (.str s) → strToNum s = some x →
        p.offset = .num x)) := by
  constructor
  · intro jd pq ao p h
    obtain ⟨filters, hf, hp⟩ := qsParseQueryString_ok jd pq ao p h
    subst hp
    dsimp only []
    refine ⟨?_, ?_, ?_, ?_⟩
    · rintro (hnone | ⟨v, hv, hfv⟩)
      · rw [hnone]
      · rw [hv]
        show (if truthy v = true then jsToNumber v else .num DefaultLimit)
          = .num DefaultLimit
        rw [if_neg (by simp [hfv])]
    · rintro (hnone | ⟨v, hv, hfv⟩)
      · rw [hnone]
      · rw [hv]
        show (if truthy v = true then jsToNumber v else .num DefaultOffset)
          = .num DefaultOffset
        rw [if_neg (by simp [hfv])]
    · intro s x hs ht hx
      rw [hs]
      show (if truthy (JValue.str s) = true then jsToNumber (.str s)
          else .num DefaultLimit) = .num x
      rw [if_pos ht]
      show (match strToNum s with | some q => JsNum.num q | none => JsNum.nan)
        = JsNum.num x
      rw [hx]
    · intro s x hs ht hx
      rw [hs]
      show (if truthy (JValue.str s) = true then jsToNumber (.str s)
          else .num DefaultOffset) = .num x
      rw [if_pos ht]
      show (match strToNum s with | some q => JsNum.num q | none => JsNum.nan)
        = JsNum.num x
      rw [hx]
  · intro query ao p h
    have hp := jsonParseQueryString_ok query ao p h
    subst hp
    dsimp only []
    refine ⟨?_, ?_, ?_, ?_⟩
    · intro hnone
      rw [hnone]
      rfl
    · intro hnone
      rw [hnone]
      rfl
    · intro s x hs hx
      rw [hs]
      show (match strToNum s with | some q => JsNum.num q | none => JsNum.nan)
        = JsNum.num x
      rw [hx]
    · intro s x hs hx
      rw [hs]
      show (match strToNum s with | some q => JsNum.num q | none => JsNum.nan)
        = JsNum.num x
      rw [hx]

/-- C3 witness: on an empty flat-param input both defaults apply. -/
theorem c3_limit_offset_defaults_witness :
    qsParseQueryString (fun _ => .error (.syntaxError "unused")) [] none =
      .ok ⟨[], .num DefaultLimit, .num DefaultOffset, .obj [], .bool false,
        .bool false, 0⟩ ∧
    (⟨[], .num DefaultLimit, .num DefaultOffset, .obj [], .bool false,
        .bool false, 0⟩ : ParseQueryResult).limit = .num DefaultLimit ∧
    (⟨[], .num DefaultLimit, .num DefaultOffset, .obj [], .bool false,
        .bool false, 0⟩ : ParseQueryResult).offset = .num DefaultOffset := by
  have h := (c3_limit_offset_defaults.1 (fun _ => .error (.syntaxError "unused"))
    [] none _ rfl)
  exact ⟨rfl, h.1 (Or.inl rfl), h.2.1 (Or.inl rfl)⟩

/-- C3 counterexample: (i) in the JSON-body variant the falsy present value
`limit: 0` does not default to 20 but parses as 0; (ii) the numeric string
"2.5" is coerced to the non-integral number 5/2, not to an integer. -/
theorem c3_counterexample :
    jsonParseQueryString [("limit", JValue.num 0)] none =
      .ok ⟨[], .num 0, .num DefaultOffset, .obj [], .bool false, .bool false, 0⟩ ∧
    JsNum.num 0 ≠ JsNum.num DefaultLimit ∧
    jsonParseQueryString [("limit", JValue.str "2.5")] none =
      .ok ⟨[], .num (mkRat 25 10), .num DefaultOffset, .obj [], .bool false,
        .bool false, 0⟩ ∧
    (mkRat 25 10).den ≠ 1 ∧ mkRat 25 10 = 5 / 2 := by
  refine ⟨rfl, by decide, rfl, by decide, ?_⟩
  rw [Rat.mkRat_eq_div]
  norm_num

/-- C4. In both variants, a successful parse yields a filter whose keys are
exactly the non-reserved top-level keys of the decoded input: no reserved key
ever appears, and every other key does. -/
theorem c4_reserved_keys_excluded :
    (∀ query ao p, jsonParseQueryString query ao = .ok p →
      ∀ k, k ∈ objKeys p.filter ↔ (k ∈ objKeys query ∧ ¬ k ∈ ReservedKeys)) ∧
    (∀ jd pq ao p, qsParseQueryString jd pq ao = .ok p →
      ∀ k, k ∈ objKeys p.filter ↔ (k ∈ objKeys pq ∧ ¬ k ∈ ReservedKeys)) := by
  constructor
  · intro query ao p h k
    have hp := jsonParseQueryString_ok query ao p h
    subst hp
    dsimp only []
    rw [mem_objKeys_objFromEntries, objKeys_map_value, mem_objKeys_filter_reserved]
  · intro jd pq ao p h k
    obtain ⟨filters, hf, hp⟩ := qsParseQueryString_ok jd pq ao p h
    subst hp
    dsimp only []
    have h2 := qsConvertEntries_keys jd _ [] filters hf k
    rw [show objKeys ([] : Obj) = ([] : List String) from rfl] at h2
    simp only [List.not_mem_nil, false_or] at h2
    rw [h2, mem_objKeys_filter_reserved]

/-- C4 witness: the reserved keys of a concrete input are dropped, the data
key is kept. -/
theorem c4_reserved_keys_excluded_witness :
    jsonParseQueryString [("limit", .num 5), ("age", .obj [("$gte", .num 18)])]
      (some ["$gte"]) =
      .ok ⟨[("age", .obj [("$gte", .num 18)])], .num 5, .num DefaultOffset,
        .obj [], .bool false, .bool false, 0⟩ ∧
    ("age" ∈ objKeys
      ((⟨[("age", .obj [("$gte", .num 18)])], .num 5, .num DefaultOffset,
        .obj [], .bool false, .bool false, 0⟩ : ParseQueryResult).filter)) ∧
    ¬ ("limit" ∈ objKeys
      ((⟨[("age", .obj [("$gte", .num 18)])], .num 5, .num DefaultOffset,
        .obj [], .bool false, .bool false, 0⟩ : ParseQueryResult).filter)) := by
  have h := c4_reserved_keys_excluded.1
    [("limit", .num 5), ("age", .obj [("$gte", .num 18)])] (some ["$gte"]) _ rfl
  refine ⟨rfl, ?_, ?_⟩
  · exact (h "age").mpr (by decide)
  · intro hmem
    have := (h "limit").mp hmem
    exact absurd this (by decide)

/-- C5. On every successful parse, `query` passes to both the count and the
find collaborator calls the spread `{...filter, ...options.queryMongoose}`:
it binds every key of either mapping, and on any key of the (distinct-keyed)
extra filter the extra filter's value wins. -/
theorem c5_extraFilter_precedence (p : ParseQueryResult) (opts : QueryOptions)
    (c : Collab) :
    (runQuery (.ok p) opts c).2 =
      [CollabCall.count (jsSpread p.filter opts.queryMongoose),
       CollabCall.find (jsSpread p.filter opts.queryMongoose) p.offset p.limit p.sort] ∧
    (∀ k, k ∈ objKeys (jsSpread p.filter opts.queryMongoose) ↔
      k ∈ objKeys p.filter ∨ k ∈ objKeys opts.queryMongoose) ∧
    ((objKeys opts.queryMongoose).Nodup →
      ∀ k, k ∈ objKeys opts.queryMongoose →
        jsGet (jsSpread p.filter opts.queryMongoose) k
          = jsGet opts.queryMongoose k) :=
  ⟨rfl, fun k => mem_objKeys_jsSpread _ _ k,
   fun hnd k hk => jsGet_jsSpread_right _ _ k hk hnd⟩

/-- C5 witness (Scenario D): extra filter `{isActive: true}` against parsed
filter `{age: {$gte: 18}, isActive: false}` — both keys present, extra wins. -/
theorem c5_extraFilter_precedence_witness :
    jsGet (jsSpread [("age", .obj [("$gte", .num 18)]), ("isActive", .bool false)]
      [("isActive", .bool true)]) "isActive" = some (.bool true) ∧
    ("age" ∈ objKeys (jsSpread
      [("age", .obj [("$gte", .num 18)]), ("isActive", .bool false)]
      [("isActive", .bool true)])) := by
  have h := c5_extraFilter_precedence
    ⟨[("age", .obj [("$gte", .num 18)]), ("isActive", .bool false)],
      .num 20, .num 0, .obj [], .bool false, .bool false, 0⟩
    { queryMongoose := [("isActive", .bool true)] }
    ⟨fun _ => 0, fun _ _ _ _ => []⟩
  constructor
  · have h3 := h.2.2 (by decide) "isActive" (by decide)
    exact h3.trans rfl
  · exact (h.2.1 "age").mpr (Or.inl (by decide))

/-- C6. A parse or validation failure propagates out of `query` with an empty
collaborator-call trace: neither count nor find is invoked. -/
theorem c6_no_collab_call_on_failure (opts : QueryOptions) (c : Collab)
    (e : JsError) :
    (∀ q, jsonParseQueryString q opts.allowedOperators = .error e →
      queryJson q opts c = (.error e, [])) ∧
    (∀ jd pq, qsParseQueryString jd pq opts.allowedOperators = .error e →
      queryQs jd pq opts c = (.error e, [])) := by
  constructor
  · intro q h
    show runQuery (jsonParseQueryString q opts.allowedOperators) opts c = _
    rw [h]
    rfl
  · intro jd pq h
    show runQuery (qsParseQueryString jd pq opts.allowedOperators) opts c = _
    rw [h]
    rfl

/-- C6 witness: a disallowed operator aborts `query` before any collaborator
call. -/
theorem c6_no_collab_call_on_failure_witness :
    jsonParseQueryString [("age", .obj [("$bad", .num 1)])]
      ({} : QueryOptions).allowedOperators
      = .error (.error (operatorErrMsg "$bad")) ∧
    queryJson [("age", .obj [("$bad", .num 1)])] {} ⟨fun _ => 7, fun _ _ _ _ => []⟩
      = (.error (.error (operatorErrMsg "$bad")), []) := by
  refine ⟨rfl, ?_⟩
  exact (c6_no_collab_call_on_failure {} ⟨fun _ => 7, fun _ _ _ _ => []⟩
    (.error (operatorErrMsg "$bad"))).1 _ rfl

/-- C7. Operator validation inspects exactly one level: (i) it depends only on
the filter values, never on top-level field names; (ii) whenever every
level-one key of an object-typed value is allow-listed, validation succeeds —
whatever disallowed keys occur at depth two or deeper inside those values
(for the JSON-body variant, provided no value is `null`); (iii) level-one keys
really are checked: the first disallowed one makes validation fail. -/
theorem c7_validation_depth_one :
    (∀ q1 q2 allowed, q1.map (fun kv => kv.2) = q2.map (fun kv => kv.2) →
      jsonValidateOperators q1 allowed = jsonValidateOperators q2 allowed ∧
      qsValidateOperators q1 allowed = qsValidateOperators q2 allowed) ∧
    (∀ q allowed, levelOneAllowed q allowed →
      qsValidateOperators q allowed = .ok () ∧
      ((∀ kv ∈ q, kv.2 ≠ JValue.null) →
        jsonValidateOperators q allowed = .ok ())) ∧
    (∀ q allowed op, specFirstViolation q allowed = some op →
      qsValidateOperators q allowed = .error (.error (operatorErrMsg op))) := by
  refine ⟨fun q1 q2 allowed h => ⟨jsonValidateOperators_values q1 q2 allowed h,
    qsValidateOperators_values q1 q2 allowed h⟩, ?_, ?_⟩
  · intro q allowed hok
    have hnone := (specFirstViolation_eq_none_iff q allowed).mpr hok
    constructor
    · rw [qsValidateOperators_eq_spec, specValidateOutcome, hnone]
    · intro hnn
      rw [jsonValidateOperators_eq_spec q allowed hnn, specValidateOutcome, hnone]
  · intro q allowed op hsome
    rw [qsValidateOperators_eq_spec, specValidateOutcome, hsome]

/-- C7 witness: a disallowed operator at depth two is not rejected, and
renaming a top-level field does not change the outcome. -/
theorem c7_validation_depth_one_witness :
    qsValidateOperators [("a", .obj [("$gte", .obj [("$deepBad", .num 1)])])]
      ["$gte"] = .ok () ∧
    jsonValidateOperators [("a", .obj [("$gte", .obj [("$deepBad", .num 1)])])]
      ["$gte"] = .ok () ∧
    jsonValidateOperators [("aFieldName", .obj [("$gte", .num 3)])] ["$gte"] =
      jsonValidateOperators [("anotherName", .obj [("$gte", .num 3)])] ["$gte"] := by
  have hok : levelOneAllowed
      [("a", .obj [("$gte", .obj [("$deepBad", .num 1)])])] ["$gte"] := by
    intro kv hkv k hk
    rcases List.mem_singleton.mp hkv with rfl
    simp [jsKeys, objKeys] at hk
    simp [hk]
  have h2 := c7_validation_depth_one.2.1 _ _ hok
  refine ⟨h2.1, h2.2 ?_, ?_⟩
  · intro kv hkv
    rcases List.mem_singleton.mp hkv with rfl
    intro hn
    cases hn
  · exact (c7_validation_depth_one.1 _ _ ["$gte"] rfl).1

/-- C8. `omitFields` is idempotent: applying it twice with the same field set
equals applying it once. -/
theorem c8_omitFields_idempotent (data : List Obj) (fields : List String) :
    omitFields (omitFields data fields) fields = omitFields data fields := by
  simp only [omitFields, List.map_map]
  apply List.map_congr_left
  intro item _
  simp only [Function.comp]
  exact omitRecord_idem item fields

/-- C9. At the heap level, `omitFields` never mutates its input: the heap is
only extended (every pre-existing address keeps its contents, so both the
input list and every input record are unchanged), the outputs are freshly
allocated addresses, one per input in input order, and their contents are the
per-record copy-with-fields-deleted values. -/
theorem c9_omitFields_no_mutation (h : Heap) (addrs : List ℕ)
    (fields : List String) (hvalid : ∀ a ∈ addrs, a < h.length) :
    omitFieldsImp h addrs fields =
      (h ++ addrs.map (fun a => omitRecord (h.getD a []) fields),
       (List.range addrs.length).map (fun i => h.length + i)) ∧
    (∀ i, i < h.length →
      (omitFieldsImp h addrs fields).1.getD i [] = h.getD i []) ∧
    (omitFieldsImp h addrs fields).2.length = addrs.length ∧
    omitFields (addrs.map (fun a => h.getD a [])) fields =
      addrs.map (fun a => omitRecord (h.getD a []) fields) := by
  have hspec := omitFieldsImp_spec h addrs fields hvalid
  refine ⟨hspec, ?_, ?_, ?_⟩
  · intro i hi
    rw [hspec]
    show (h ++ addrs.map (fun a => omitRecord (h.getD a []) fields)).getD i []
      = h.getD i []
    exact List.getD_append _ _ _ _ hi
  · rw [hspec]
    show ((List.range addrs.length).map (fun i => h.length + i)).length
      = addrs.length
    simp
  · simp only [omitFields, List.map_map]
    rfl

/-- C9 witness: two records, omitting field "a": the original heap cells are
untouched and the outputs are fresh copies. -/
theorem c9_omitFields_no_mutation_witness :
    omitFieldsImp [[("a", .num 1), ("b", .num 2)], [("a", .num 3)]] [0, 1] ["a"] =
      ([[("a", .num 1), ("b", .num 2)], [("a", .num 3)],
        [("b", .num 2)], []], [2, 3]) ∧
    (omitFieldsImp [[("a", .num 1), ("b", .num 2)], [("a", .num 3)]]
      [0, 1] ["a"]).1.getD 0 [] = [("a", .num 1), ("b", .num 2)] := by
  have h := c9_omitFields_no_mutation
    [[("a", .num 1), ("b", .num 2)], [("a", .num 3)]] [0, 1] ["a"] (by decide)
  exact ⟨rfl, h.2.1 0 (by decide)⟩

/-- C10 (amended). On every filter that binds some field to `null` and whose
object-typed values carry only allow-listed level-one keys (so that no
operator violation preempts the scan, fail-fast), the JSON-body
`validateOperators` raises the `TypeError` of `Object.keys(null)` while the
flat-param variant — whose null guard skips the value — returns without
error. -/
theorem c10_null_filter_divergence (q : Obj) (allowed : List String)
    (hok : levelOneAllowed q allowed) (hnull : ∃ kv ∈ q, kv.2 = JValue.null) :
    jsonValidateOperators q allowed =
      .error (.typeError "Cannot convert undefined or null to object") ∧
    qsValidateOperators q allowed = .ok () := by
  refine ⟨jsonValidateOperators_null_typeError q allowed hok hnull, ?_⟩
  have hnone := (specFirstViolation_eq_none_iff q allowed).mpr hok
  rw [qsValidateOperators_eq_spec, specValidateOutcome, hnone]

/-- C10 witness: the filter `{age: {$gte: 18}, x: null}` under allow-list
`[$gte]`. -/
theorem c10_null_filter_divergence_witness :
    jsonValidateOperators [("age", .obj [("$gte", .num 18)]), ("x", JValue.null)]
      ["$gte"] = .error (.typeError "Cannot convert undefined or null to object") ∧
    qsValidateOperators [("age", .obj [("$gte", .num 18)]), ("x", JValue.null)]
      ["$gte"] = .ok () := by
  apply c10_null_filter_divergence
  · intro kv hkv k hk
    rcases List.mem_cons.mp hkv with rfl | hkv'
    · simp [jsKeys, objKeys] at hk
      simp [hk]
    · rcases List.mem_singleton.mp hkv' with rfl
      simp [jsKeys] at hk
  · exact ⟨("x", JValue.null), by simp, rfl⟩

/-- C10 counterexample: the divergence does not hold for arbitrary filters
binding a field to `null` — a disallowed operator elsewhere preempts it.
With `{a: {$x: 1}, b: null}` the JSON-body validator throws the plain operator
`Error`, not a `TypeError`; with the entries in the other order the flat-param
validator does not return without error either. -/
theorem c10_counterexample :
    jsonValidateOperators [("a", .obj [("$x", .num 1)]), ("b", JValue.null)]
      ["$gte"] = .error (.error (operatorErrMsg "$x")) ∧
    JsError.error (operatorErrMsg "$x")
      ≠ JsError.typeError "Cannot convert undefined or null to object" ∧
    qsValidateOperators [("b", JValue.null), ("a", .obj [("$x", .num 1)])]
      ["$gte"] = .error (.error (operatorErrMsg "$x")) := by
  exact ⟨rfl, by decide, rfl⟩

end Query3
